import Mathlib

/-!
Shallow embedding of the Bakuretsu review-card generator
(`review_card_generator.py`) and proofs about its specification.

Numeric conventions: Python floats that hold scores and aspect ratios are
modelled as `ℚ`; pixel coordinates and measured text widths are `ℤ` or `ℕ`.
Fonts are modelled as abstract measurement functions `String → ℤ`
(the width component `bbox[2]` of `font.getbbox`), since the engine only
ever queries a font for the width of a string.
-/

namespace Bakuretsu

/-- Python `' '.join(ws)`: words joined by single spaces. -/
def joinSpace : List String → String
  | [] => ""
  | [w] => w
  | w :: ws => w ++ " " ++ joinSpace ws

/-- Helper for `pySplit`: scans the characters, accumulating the current
word's characters in reverse in `cur`. -/
def pySplitAux : List Char → List Char → List String
  | [], cur => if cur = [] then [] else [cur.reverse.asString]
  | c :: cs, cur =>
    if c.isWhitespace then
      if cur = [] then pySplitAux cs [] else cur.reverse.asString :: pySplitAux cs []
    else
      pySplitAux cs (c :: cur)

/-- Python `text.split()`: split on whitespace runs, dropping empty pieces. -/
def pySplit (text : String) : List String :=
  pySplitAux text.data []

/-- The loop of `ReviewCardGenerator._wrap_text`: `words` still to process,
`current` the candidate line (a list of words), `lines` the flushed lines.
For each word the space-joined candidate plus the word is measured; if it
fits it extends the candidate, otherwise the candidate is flushed (when
non-empty) and the word starts a fresh candidate.  A trailing non-empty
candidate is flushed at the end. -/
def wrapLoop (measure : String → ℤ) (maxWidth : ℤ) :
    List String → List String → List String → List String
  | [], current, lines =>
    if current ≠ [] then lines ++ [joinSpace current] else lines
  | w :: ws, current, lines =>
    let test_line := joinSpace (current ++ [w])
    if measure test_line ≤ maxWidth then
      wrapLoop measure maxWidth ws (current ++ [w]) lines
    else
      wrapLoop measure maxWidth ws [w]
        (if current ≠ [] then lines ++ [joinSpace current] else lines)

/-- `ReviewCardGenerator._wrap_text(text, font, max_width)`. -/
def wrapText (measure : String → ℤ) (maxWidth : ℤ) (text : String) : List String :=
  wrapLoop measure maxWidth (pySplit text) [] []

/-- Python `text.strip()`: drop leading and trailing whitespace. -/
def pyStrip (s : String) : String :=
  ((s.data.dropWhile Char.isWhitespace).reverse.dropWhile Char.isWhitespace).reverse.asString

theorem joinSpace_singleton (w : String) : joinSpace [w] = w := rfl

theorem joinSpace_cons_cons (w x : String) (t : List String) :
    joinSpace (w :: x :: t) = w ++ " " ++ joinSpace (x :: t) := rfl

theorem joinSpace_append : ∀ (a b : List String), a ≠ [] → b ≠ [] →
    joinSpace (a ++ b) = joinSpace a ++ " " ++ joinSpace b
  | [], _, ha, _ => absurd rfl ha
  | [_], b, _, hb => by
    cases b with
    | nil => exact absurd rfl hb
    | cons x bs => rfl
  | w :: w' :: a', b, _, hb => by
    have ih := joinSpace_append (w' :: a') b (by simp) hb
    have h1 : (w :: w' :: a') ++ b = w :: ((w' :: a') ++ b) := rfl
    rw [h1]
    have h2 : joinSpace (w :: ((w' :: a') ++ b)) = w ++ " " ++ joinSpace ((w' :: a') ++ b) := rfl
    rw [h2, ih, joinSpace_cons_cons]
    simp [String.append_assoc]

/-- Soundness invariant of the wrap loop: every line it ever emits either
fits in `maxWidth` or is a single word taken from the word pool `W`. -/
theorem wrapLoop_sound (measure : String → ℤ) (maxWidth : ℤ) (W : List String) :
    ∀ (ws current lines : List String),
      (∀ w ∈ ws, w ∈ W) →
      (current = [] ∨ (∃ w ∈ W, current = [w]) ∨ measure (joinSpace current) ≤ maxWidth) →
      (∀ l ∈ lines, measure l ≤ maxWidth ∨ ∃ w ∈ W, l = w) →
      ∀ l ∈ wrapLoop measure maxWidth ws current lines,
        measure l ≤ maxWidth ∨ ∃ w ∈ W, l = w := by
  intro ws
  induction ws with
  | nil =>
    intro current lines _ hcur hlines l hl
    rw [wrapLoop] at hl
    by_cases hc : current = []
    · simp [hc] at hl
      exact hlines l hl
    · simp [hc] at hl
      rcases hl with hl | hl
      · exact hlines l hl
      · subst hl
        rcases hcur with h | ⟨w, hw, hcw⟩ | h
        · exact absurd h hc
        · subst hcw
          exact Or.inr ⟨w, hw, rfl⟩
        · exact Or.inl h
  | cons w ws ih =>
    intro current lines hws hcur hlines l hl
    rw [wrapLoop] at hl
    by_cases htest : measure (joinSpace (current ++ [w])) ≤ maxWidth
    · simp only [htest, if_pos] at hl
      exact ih (current ++ [w]) lines (fun x hx => hws x (List.mem_cons_of_mem _ hx))
        (Or.inr (Or.inr htest)) hlines l hl
    · simp only [htest, if_neg, not_false_iff] at hl
      have hwW : w ∈ W := hws w (List.mem_cons_self _ _)
      refine ih [w] _ (fun x hx => hws x (List.mem_cons_of_mem _ hx))
        (Or.inr (Or.inl ⟨w, hwW, rfl⟩)) ?_ l hl
      intro l' hl'
      by_cases hc : current = []
      · simp [hc] at hl'
        exact hlines l' hl'
      · simp [hc] at hl'
        rcases hl' with hl' | hl'
        · exact hlines l' hl'
        · subst hl'
          rcases hcur with h | ⟨v, hv, hcv⟩ | h
          · exact absurd h hc
          · subst hcv
            exact Or.inr ⟨v, hv, rfl⟩
          · exact Or.inl h

theorem joinSpace_join_ne_nil : ∀ (g : List String) (gs : List (List String)),
    g ≠ [] → (g :: gs).flatten ≠ []
  | [], _, hg => absurd rfl hg
  | c :: g', gs, _ => by simp

theorem joinSpace_flatten : ∀ (groups : List (List String)),
    (∀ g ∈ groups, g ≠ []) →
    joinSpace (groups.map joinSpace) = joinSpace groups.flatten
  | [], _ => rfl
  | g :: gs, hne => by
    have hg : g ≠ [] := hne g (List.mem_cons_self _ _)
    cases gs with
    | nil => simp [joinSpace_singleton]
    | cons g' gs' =>
      have hg' : g' ≠ [] := hne g' (by simp)
      have ih := joinSpace_flatten (g' :: gs') (fun x hx => hne x (List.mem_cons_of_mem _ hx))
      have hmap : (g :: g' :: gs').map joinSpace
          = joinSpace g :: (g' :: gs').map joinSpace := rfl
      rw [hmap]
      have hcons : joinSpace (joinSpace g :: (g' :: gs').map joinSpace)
          = joinSpace g ++ " " ++ joinSpace ((g' :: gs').map joinSpace) := rfl
      rw [hcons, ih]
      have hjoin : (g :: g' :: gs').flatten = g ++ (g' :: gs').flatten := rfl
      rw [hjoin, joinSpace_append g _ hg (joinSpace_join_ne_nil g' gs' hg')]

/-- Flattening invariant of the wrap loop: the emitted lines are space-joins
of non-empty groups of words, and the groups concatenate back to the words
already consumed plus the candidate plus the words still to process. -/
theorem wrapLoop_join (measure : String → ℤ) (maxWidth : ℤ) :
    ∀ (ws current : List String) (groups : List (List String)),
      (∀ g ∈ groups, g ≠ []) →
      ∃ groups' : List (List String),
        wrapLoop measure maxWidth ws current (groups.map joinSpace) = groups'.map joinSpace ∧
        (∀ g ∈ groups', g ≠ []) ∧
        groups'.flatten = groups.flatten ++ current ++ ws := by
  intro ws
  induction ws with
  | nil =>
    intro current groups hne
    by_cases hc : current = []
    · refine ⟨groups, ?_, hne, ?_⟩
      · rw [wrapLoop]; simp [hc]
      · simp [hc]
    · refine ⟨groups ++ [current], ?_, ?_, ?_⟩
      · rw [wrapLoop]; simp [hc]
      · intro g hg
        rcases List.mem_append.mp hg with h | h
        · exact hne g h
        · simp at h; subst h; exact hc
      · simp
  | cons w ws ih =>
    intro current groups hne
    by_cases htest : measure (joinSpace (current ++ [w])) ≤ maxWidth
    · obtain ⟨groups', h1, h2, h3⟩ := ih (current ++ [w]) groups hne
      refine ⟨groups', ?_, h2, ?_⟩
      · rw [wrapLoop]; simp only [htest, if_pos]; exact h1
      · rw [h3]; simp
    · by_cases hc : current = []
      · obtain ⟨groups', h1, h2, h3⟩ := ih [w] groups hne
        refine ⟨groups', ?_, h2, ?_⟩
        · rw [wrapLoop]; simp only [htest, if_neg, not_false_iff, hc]
          simpa [hc] using h1
        · rw [h3, hc]; simp
      · have hne' : ∀ g ∈ groups ++ [current], g ≠ [] := by
          intro g hg
          rcases List.mem_append.mp hg with h | h
          · exact hne g h
          · simp at h; subst h; exact hc
        obtain ⟨groups', h1, h2, h3⟩ := ih [w] (groups ++ [current]) hne'
        refine ⟨groups', ?_, h2, ?_⟩
        · rw [wrapLoop]; simp only [htest, if_neg, not_false_iff]
          rw [if_pos hc]
          rw [List.map_append] at h1
          simpa using h1
        · rw [h3]; simp

/-- Fitting loop: when the candidate `pre` is non-empty and the join of all
remaining material fits, the loop emits everything as one final line. -/
theorem wrapLoop_all_fit (measure : String → ℤ) (maxWidth : ℤ)
    (hmono : ∀ s t : String, measure s ≤ measure (s ++ t)) :
    ∀ (ws pre lines : List String),
      pre ≠ [] →
      measure (joinSpace (pre ++ ws)) ≤ maxWidth →
      wrapLoop measure maxWidth ws pre lines = lines ++ [joinSpace (pre ++ ws)] := by
  intro ws
  induction ws with
  | nil =>
    intro pre lines hpre hfit
    rw [wrapLoop]; simp [hpre]
  | cons w ws ih =>
    intro pre lines hpre hfit
    have hassoc : pre ++ w :: ws = (pre ++ [w]) ++ ws := by simp
    have htest : measure (joinSpace (pre ++ [w])) ≤ maxWidth := by
      cases ws with
      | nil => simpa using hfit
      | cons x xs =>
        have hsplit : joinSpace ((pre ++ [w]) ++ x :: xs)
            = joinSpace (pre ++ [w]) ++ " " ++ joinSpace (x :: xs) :=
          joinSpace_append _ _ (by simp) (by simp)
        rw [hassoc, hsplit] at hfit
        calc measure (joinSpace (pre ++ [w]))
            ≤ measure (joinSpace (pre ++ [w]) ++ (" " ++ joinSpace (x :: xs))) := hmono _ _
          _ = measure (joinSpace (pre ++ [w]) ++ " " ++ joinSpace (x :: xs)) := by
              rw [String.append_assoc]
          _ ≤ maxWidth := hfit
    rw [wrapLoop]
    simp only [htest, if_pos]
    rw [ih (pre ++ [w]) lines (by simp) (by rw [← hassoc]; exact hfit), hassoc]

end Bakuretsu

namespace Bakuretsu

/-- C4: every line emitted by `_wrap_text` has measured width at most
`maxWidth`, except possibly a line that consists of exactly one word of the
input (an overlong single word is emitted alone, never split mid-word). -/
theorem wrap_line_width_bound (measure : String → ℤ) (maxWidth : ℤ) (text : String) :
    ∀ line ∈ wrapText measure maxWidth text,
      measure line ≤ maxWidth ∨ ∃ w ∈ pySplit text, line = w := by
  intro line hline
  exact wrapLoop_sound measure maxWidth (pySplit text) (pySplit text) [] []
    (fun _ h => h) (Or.inl rfl) (fun l hl => absurd hl (List.not_mem_nil l)) line hline

/-- Witness for C4 at a concrete input: with a 3px budget and character-count
metric, the line `"hello"` is emitted and is a single input word. -/
theorem wrap_line_width_bound_witness :
    (fun s : String => (s.length : ℤ)) "hello" ≤ 3 ∨
      ∃ w ∈ pySplit "hello world", "hello" = w :=
  wrap_line_width_bound (fun s : String => (s.length : ℤ)) 3 "hello world" "hello" (by decide)

/-- C10: joining `_wrap_text`'s output lines with single spaces equals the
input with all whitespace runs collapsed to single spaces
(`' '.join(text.split())`): no word is lost, duplicated or reordered; and an
empty or whitespace-only input yields an empty line sequence. -/
theorem wrap_words_preserved (measure : String → ℤ) (maxWidth : ℤ) (text : String) :
    joinSpace (wrapText measure maxWidth text) = joinSpace (pySplit text) ∧
    (pySplit text = [] → wrapText measure maxWidth text = []) := by
  constructor
  · obtain ⟨groups', h1, h2, h3⟩ := wrapLoop_join measure maxWidth (pySplit text) [] []
      (fun g hg => absurd hg (List.not_mem_nil g))
    have hwrap : wrapText measure maxWidth text = groups'.map joinSpace := by
      rw [wrapText]; exact h1
    rw [hwrap, joinSpace_flatten groups' h2, h3]
    simp
  · intro h
    rw [wrapText, h, wrapLoop]
    simp

/-- Witness for C10 at a concrete input. -/
theorem wrap_words_preserved_witness :
    joinSpace (wrapText (fun s : String => (s.length : ℤ)) 3 "hello   world") =
      joinSpace (pySplit "hello   world") ∧
    (pySplit "hello   world" = [] →
      wrapText (fun s : String => (s.length : ℤ)) 3 "hello   world" = []) :=
  wrap_words_preserved (fun s : String => (s.length : ℤ)) 3 "hello   world"

/-- C5 counterexample: with the (monotone) character-count metric and budget
10, the input `"a  b"` is non-empty, measures below the budget, yet the
wrapper returns `["a b"]`, which is not the trimmed input `"a  b"` —
interior whitespace runs are collapsed, so the single returned line is the
whitespace-collapsed input, not the trimmed input. -/
theorem wrap_short_text_cex :
    "a  b" ≠ "" ∧
    (fun s : String => (s.length : ℤ)) "a  b" < 10 ∧
    wrapText (fun s : String => (s.length : ℤ)) 10 "a  b" ≠ [pyStrip "a  b"] := by
  refine ⟨by decide, by decide, by decide⟩

/-- C5 (amended): for every measure that is monotone under appending (as a
font width metric is), every input with at least one word whose
whitespace-collapsed form measures below the max width wraps to exactly one
line, equal to the whitespace-collapsed input `' '.join(text.split())`. -/
theorem wrap_short_text_single_line (measure : String → ℤ) (maxWidth : ℤ) (text : String)
    (hmono : ∀ s t : String, measure s ≤ measure (s ++ t))
    (hne : pySplit text ≠ [])
    (hfits : measure (joinSpace (pySplit text)) < maxWidth) :
    wrapText measure maxWidth text = [joinSpace (pySplit text)] := by
  obtain ⟨w, ws, hW⟩ : ∃ w ws, pySplit text = w :: ws := by
    cases h : pySplit text with
    | nil => exact absurd h hne
    | cons a as => exact ⟨a, as, rfl⟩
  have hfull : measure (joinSpace (w :: ws)) ≤ maxWidth := le_of_lt (hW ▸ hfits)
  rw [wrapText, hW, wrapLoop]
  have hw1 : measure (joinSpace ([] ++ [w])) ≤ maxWidth := by
    have hstep : measure (joinSpace [w]) ≤ measure (joinSpace (w :: ws)) := by
      cases ws with
      | nil => exact le_refl _
      | cons x xs =>
        rw [joinSpace_singleton, joinSpace_cons_cons]
        calc measure w ≤ measure (w ++ (" " ++ joinSpace (x :: xs))) := hmono _ _
          _ = measure (w ++ " " ++ joinSpace (x :: xs)) := by rw [String.append_assoc]
    exact le_trans hstep hfull
  simp only [hw1, if_pos]
  have hrun := wrapLoop_all_fit measure maxWidth hmono ws [w] [] (by simp)
    (by simpa using hfull)
  simpa using hrun

/-- Witness for C5 (amended) at a concrete input. -/
theorem wrap_short_text_single_line_witness :
    wrapText (fun s : String => (s.length : ℤ)) 20 "hello world" =
      [joinSpace (pySplit "hello world")] :=
  wrap_short_text_single_line (fun s : String => (s.length : ℤ)) 20 "hello world"
    (fun s t => by simp only [String.length_append]; push_cast; omega)
    (by decide) (by decide)

end Bakuretsu

namespace Bakuretsu

/-- Score color buckets named by the spec. -/
inductive Bucket
  | good
  | okay
  | poor
  | bad
deriving DecidableEq, Repr

/-- The fixed RGB constant of each bucket (the literals of
`_get_score_color`). -/
def bucketColor : Bucket → ℕ × ℕ × ℕ
  | .good => (34, 197, 94)
  | .okay => (234, 179, 8)
  | .poor => (249, 115, 22)
  | .bad => (239, 68, 68)

/-- Spec-worded classifier: inclusive lower bounds evaluated in descending
order (`score ≥ 8 → Good`, `score ≥ 6 → Okay`, `score ≥ 4 → Poor`,
otherwise `Bad`). -/
def classifyBucket (score : ℚ) : Bucket :=
  if score ≥ 8 then .good
  else if score ≥ 6 then .okay
  else if score ≥ 4 then .poor
  else .bad

/-- `ReviewCardGenerator._get_score_color`. -/
def get_score_color (score : ℚ) : ℕ × ℕ × ℕ :=
  if score ≥ 8 then (34, 197, 94)
  else if score ≥ 6 then (234, 179, 8)
  else if score ≥ 4 then (249, 115, 22)
  else (239, 68, 68)

/-- Float-format rounding of `10 * x` to the nearest integer, ties to even
(the rounding used by Python's `f"{x:.1f}"`).  `10 * x = (10 * x.num) / x.den`
exactly, so the quotient and remainder of `10 * x.num` by `x.den` give the
floor and the fractional part. -/
def roundTenths (x : ℚ) : ℤ :=
  let q := Int.ediv (10 * x.num) x.den
  let r := Int.emod (10 * x.num) x.den
  if 2 * r < x.den then q
  else if (x.den : ℤ) < 2 * r then q + 1
  else if q % 2 = 0 then q else q + 1

/-- Python `f"{x:.1f}"` for non-negative `x`: the decimal with exactly one
fractional digit nearest to `x`, ties to even. -/
def pyFormat1 (x : ℚ) : String :=
  toString (Int.ediv (roundTenths x) 10) ++ "." ++ toString (Int.emod (roundTenths x) 10)

/-- `ReviewCardGenerator._format_score`: `"{int}/10"` for an exact integer
score, else `f"{score:.1f}/10"`.  (`score == int(score)` holds exactly when
the rational has denominator 1.) -/
def format_score (score : ℚ) : String :=
  if score.den = 1 then toString score.num ++ "/10"
  else pyFormat1 score ++ "/10"

theorem roundTenths_close (x : ℚ) : |(roundTenths x : ℚ) - 10 * x| ≤ 1/2 := by
  set n : ℤ := 10 * x.num with hn
  set d : ℤ := (x.den : ℤ) with hd
  have hd0 : (0 : ℤ) < d := by
    rw [hd]; exact_mod_cast x.den_pos
  have hdq : (0 : ℚ) < (d : ℚ) := by exact_mod_cast hd0
  have hqr : n = d * Int.ediv n d + Int.emod n d := (Int.ediv_add_emod n d).symm
  have hr0 : 0 ≤ Int.emod n d := Int.emod_nonneg n (ne_of_gt hd0)
  have hrd : Int.emod n d < d := Int.emod_lt_of_pos n hd0
  have hx10 : 10 * x = (n : ℚ) / d := by
    rw [hn, hd]
    push_cast
    rw [mul_div_assoc, Rat.num_div_den]
  have hkey : 10 * x = (Int.ediv n d : ℚ) + (Int.emod n d : ℚ) / d := by
    rw [hx10]
    field_simp
    have hq2 : (n : ℚ) = (d : ℚ) * (Int.ediv n d : ℚ) + (Int.emod n d : ℚ) := by
      exact_mod_cast hqr
    linarith
  have hfrac0 : (0 : ℚ) ≤ (Int.emod n d : ℚ) / d :=
    div_nonneg (by exact_mod_cast hr0) (le_of_lt hdq)
  have hfrac1 : (Int.emod n d : ℚ) / d < 1 := by
    rw [div_lt_one hdq]; exact_mod_cast hrd
  rw [roundTenths]
  rw [abs_le]
  split_ifs with h1 h2 h3
  · -- 2 r < d : round down, fractional part < 1/2
    have : (Int.emod n d : ℚ) / d ≤ 1/2 := by
      rw [div_le_iff₀ hdq]
      have : (2 * Int.emod n d : ℚ) ≤ (d : ℚ) := by exact_mod_cast le_of_lt h1
      linarith
    constructor <;> rw [hkey] <;> linarith
  · -- d < 2 r : round up, fractional part > 1/2
    have : (1:ℚ)/2 ≤ (Int.emod n d : ℚ) / d := by
      rw [le_div_iff₀ hdq]
      have : (d : ℚ) ≤ (2 * Int.emod n d : ℚ) := by exact_mod_cast le_of_lt h2
      linarith
    constructor <;> rw [hkey] <;> push_cast <;> linarith
  · -- tie, even floor: round down
    have : (Int.emod n d : ℚ) / d ≤ 1/2 := by
      rw [div_le_iff₀ hdq]
      have : (2 * Int.emod n d : ℚ) = (d : ℚ) := by exact_mod_cast le_antisymm (not_lt.mp h2) (not_lt.mp h1)
      linarith
    constructor <;> rw [hkey] <;> linarith
  · -- tie, odd floor: round up
    have : (1:ℚ)/2 ≤ (Int.emod n d : ℚ) / d := by
      rw [le_div_iff₀ hdq]
      have : (d : ℚ) = (2 * Int.emod n d : ℚ) := by exact_mod_cast (le_antisymm (not_lt.mp h2) (not_lt.mp h1)).symm
      linarith
    constructor <;> rw [hkey] <;> push_cast <;> linarith

theorem roundTenths_nonneg (x : ℚ) (hx : 0 ≤ x) : 0 ≤ roundTenths x := by
  have hn0 : 0 ≤ 10 * x.num := by
    have := Rat.num_nonneg.mpr hx
    omega
  have hd0 : (0 : ℤ) < (x.den : ℤ) := by exact_mod_cast x.den_pos
  have hq0 : 0 ≤ Int.ediv (10 * x.num) x.den := Int.ediv_nonneg hn0 (le_of_lt hd0)
  rw [roundTenths]
  split_ifs <;> omega

theorem roundTenths_le_hundred (x : ℚ) (hx : x < 10) : roundTenths x ≤ 100 := by
  have hd0 : (0 : ℤ) < (x.den : ℤ) := by exact_mod_cast x.den_pos
  have hn : 10 * x.num < 100 * x.den := by
    have hlt : (x.num : ℚ) < 10 * x.den := by
      have := (div_lt_iff₀ (show (0:ℚ) < (x.den:ℚ) by exact_mod_cast hd0)).mp
        (by rw [Rat.num_div_den]; exact hx)
      linarith
    have : x.num < 10 * (x.den : ℤ) := by exact_mod_cast hlt
    omega
  have hqr : 10 * x.num
      = (x.den : ℤ) * Int.ediv (10 * x.num) x.den + Int.emod (10 * x.num) x.den :=
    (Int.ediv_add_emod _ _).symm
  have hr0 : 0 ≤ Int.emod (10 * x.num) x.den := Int.emod_nonneg _ (ne_of_gt hd0)
  have hmul : (x.den : ℤ) * Int.ediv (10 * x.num) x.den < (x.den : ℤ) * 100 := by
    linarith
  have hq : Int.ediv (10 * x.num) x.den < 100 := lt_of_mul_lt_mul_left hmul (le_of_lt hd0)
  rw [roundTenths]
  split_ifs <;> omega

end Bakuretsu

namespace Bakuretsu

/-- C2: for every score in `[0,10]`, `_get_score_color` returns exactly the
color of the bucket given by the spec's rule (inclusive lower bounds in
descending order), and the rule partitions as `s ≥ 8 → Good`,
`6 ≤ s < 8 → Okay`, `4 ≤ s < 6 → Poor`, `s < 4 → Bad` — so the boundary
values 8, 6 and 4 classify into the higher bucket. -/
theorem score_color_buckets (s : ℚ) (_h0 : 0 ≤ s) (_h10 : s ≤ 10) :
    get_score_color s = bucketColor (classifyBucket s) ∧
    (8 ≤ s → classifyBucket s = .good) ∧
    (6 ≤ s ∧ s < 8 → classifyBucket s = .okay) ∧
    (4 ≤ s ∧ s < 6 → classifyBucket s = .poor) ∧
    (s < 4 → classifyBucket s = .bad) := by
  refine ⟨?_, ?_, ?_, ?_, ?_⟩
  · rw [get_score_color, classifyBucket]
    split_ifs <;> rfl
  · intro h
    rw [classifyBucket, if_pos h]
  · rintro ⟨h6, h8⟩
    rw [classifyBucket, if_neg (not_le.mpr h8), if_pos h6]
  · rintro ⟨h4, h6⟩
    rw [classifyBucket, if_neg (not_le.mpr (lt_trans h6 (by norm_num))),
      if_neg (not_le.mpr h6), if_pos h4]
  · intro h4
    rw [classifyBucket, if_neg (not_le.mpr (lt_trans h4 (by norm_num))),
      if_neg (not_le.mpr (lt_trans h4 (by norm_num))), if_neg (not_le.mpr h4)]

/-- Witness for C2 at the boundary score 8: the bucket is Good (green). -/
theorem score_color_buckets_witness :
    get_score_color 8 = bucketColor (classifyBucket 8) ∧
    (8 ≤ (8:ℚ) → classifyBucket 8 = .good) ∧
    ((6:ℚ) ≤ 8 ∧ (8:ℚ) < 8 → classifyBucket 8 = .okay) ∧
    ((4:ℚ) ≤ 8 ∧ (8:ℚ) < 6 → classifyBucket 8 = .poor) ∧
    ((8:ℚ) < 4 → classifyBucket 8 = .bad) :=
  score_color_buckets 8 (by norm_num) (by norm_num)

/-- C3: for every score in `[0,10]`, the displayed label is `"{int(s)}/10"`
when the score is an exact integer, and otherwise is the score rendered with
exactly one fractional digit (the nearest tenth, within 1/20 of the score)
followed by `"/10"`. -/
theorem format_score_spec (s : ℚ) (h0 : 0 ≤ s) (h10 : s ≤ 10) :
    (s.den = 1 → format_score s = toString s.num ++ "/10") ∧
    (s.den ≠ 1 → ∃ t : ℤ, 0 ≤ t ∧ t ≤ 100 ∧
      format_score s = toString (Int.ediv t 10) ++ "." ++ toString (Int.emod t 10) ++ "/10" ∧
      |(t : ℚ) - 10 * s| ≤ 1/2) := by
  constructor
  · intro h
    rw [format_score, if_pos h]
  · intro h
    refine ⟨roundTenths s, roundTenths_nonneg s h0, ?_, ?_, roundTenths_close s⟩
    · apply roundTenths_le_hundred
      rcases lt_or_eq_of_le h10 with hlt | heq
      · exact hlt
      · exact absurd (show s.den = 1 by rw [heq]; decide) h
    · rw [format_score, if_neg h, pyFormat1]

/-- Witness for C3 at the score 3.99 (= 399/100): a non-integer score,
rendered as `"4.0/10"` (one fractional digit, nearest tenth). -/
theorem format_score_spec_witness :
    (0:ℚ) ≤ mkRat 399 100 ∧ mkRat 399 100 ≤ 10 ∧ (mkRat 399 100).den ≠ 1 ∧
    format_score (mkRat 399 100) = "4.0/10" ∧
    (∃ t : ℤ, 0 ≤ t ∧ t ≤ 100 ∧
      format_score (mkRat 399 100)
        = toString (Int.ediv t 10) ++ "." ++ toString (Int.emod t 10) ++ "/10" ∧
      |(t : ℚ) - 10 * mkRat 399 100| ≤ 1/2) :=
  ⟨by decide, by decide, by decide, by decide,
    (format_score_spec (mkRat 399 100) (by decide) (by decide)).2 (by decide)⟩

end Bakuretsu

namespace Bakuretsu

/-- A decoded raster image, tracked by its pixel dimensions (the only
attributes the cover-normalization geometry depends on). -/
structure Img where
  width : ℕ
  height : ℕ
deriving DecidableEq, Repr

/-- The resize step of `_create_cover_with_rounded_corners`:
`cover_ratio = width / height`, `target_ratio = target_width / target_height`;
if `cover_ratio > target_ratio` the output height is `target_height` and the
width is `int(new_height * cover_ratio)`, otherwise the output width is
`target_width` and the height is `int(new_width / cover_ratio)` (Python's
`int` truncates; the values are non-negative, so it is the floor). -/
def coverResizeDims (cover : Img) (target_width target_height : ℕ) : ℕ × ℕ :=
  let cover_ratio : ℚ := (cover.width : ℚ) / cover.height
  let target_ratio : ℚ := (target_width : ℚ) / target_height
  if cover_ratio > target_ratio then
    ((⌊(target_height : ℚ) * cover_ratio⌋).toNat, target_height)
  else
    (target_width, (⌊(target_width : ℚ) / cover_ratio⌋).toNat)

/-- The center-crop step: Python's `crop((left, top, left + target_width,
top + target_height))` with `left = (new_width - target_width) // 2` and
`top = (new_height - target_height) // 2` returns a tile whose size is
exactly the size of the requested box (`right - left`, `bottom - top`). -/
def coverCropDims (resized : ℕ × ℕ) (target_width target_height : ℕ) : Img :=
  let left := (resized.1 - target_width) / 2
  let top := (resized.2 - target_height) / 2
  ⟨(left + target_width) - left, (top + target_height) - top⟩

/-- `_create_cover_with_rounded_corners`, tracked at the level of tile
geometry (the rounded-corner mask and alpha paste preserve dimensions). -/
def create_cover_with_rounded_corners (cover : Img) (target_width target_height : ℕ) : Img :=
  coverCropDims (coverResizeDims cover target_width target_height) target_width target_height

/-- C8: for every decoded source image with positive dimensions and positive
targets, the cover normalizer returns a tile of exactly
`target_width × target_height`; when the source aspect ratio exceeds the
target aspect ratio the resize fixes the height at `target_height` and the
width overflows (is at least `target_width`, center-cropped), and otherwise
the resize fixes the width at `target_width` and the height overflows. -/
theorem cover_normalizer_dims (cover : Img) (tw th : ℕ)
    (hw : 0 < cover.width) (hh : 0 < cover.height) (htw : 0 < tw) (hth : 0 < th) :
    create_cover_with_rounded_corners cover tw th = ⟨tw, th⟩ ∧
    ((cover.width : ℚ) / cover.height > (tw : ℚ) / th →
      (coverResizeDims cover tw th).2 = th ∧ tw ≤ (coverResizeDims cover tw th).1) ∧
    ((cover.width : ℚ) / cover.height ≤ (tw : ℚ) / th →
      (coverResizeDims cover tw th).1 = tw ∧ th ≤ (coverResizeDims cover tw th).2) := by
  have hwq : (0:ℚ) < (cover.width : ℚ) := by exact_mod_cast hw
  have hhq : (0:ℚ) < (cover.height : ℚ) := by exact_mod_cast hh
  have htwq : (0:ℚ) < (tw : ℚ) := by exact_mod_cast htw
  have hthq : (0:ℚ) < (th : ℚ) := by exact_mod_cast hth
  refine ⟨?_, ?_, ?_⟩
  · rw [create_cover_with_rounded_corners, coverCropDims]
    simp
  · intro hgt
    rw [coverResizeDims]
    rw [if_pos hgt]
    refine ⟨rfl, ?_⟩
    have hcross : (tw : ℚ) * cover.height < (cover.width : ℚ) * th :=
      (div_lt_div_iff₀ hthq hhq).mp hgt
    have hval : (tw : ℚ) ≤ (th : ℚ) * ((cover.width : ℚ) / cover.height) := by
      rw [mul_div_assoc']
      rw [le_div_iff₀ hhq]
      nlinarith
    have hfloor : (tw : ℤ) ≤ ⌊(th : ℚ) * ((cover.width : ℚ) / cover.height)⌋ :=
      Int.le_floor.mpr (by exact_mod_cast hval)
    have h0 : (0:ℤ) ≤ ⌊(th : ℚ) * ((cover.width : ℚ) / cover.height)⌋ :=
      le_trans (by exact_mod_cast Nat.zero_le tw) hfloor
    exact (Int.le_toNat h0).mpr hfloor
  · intro hle
    rw [coverResizeDims]
    rw [if_neg (not_lt.mpr hle)]
    refine ⟨rfl, ?_⟩
    have hcross : (cover.width : ℚ) * th ≤ (tw : ℚ) * cover.height :=
      (div_le_div_iff₀ hhq hthq).mp hle
    have hval : (th : ℚ) ≤ (tw : ℚ) / ((cover.width : ℚ) / cover.height) := by
      rw [div_div_eq_mul_div]
      rw [le_div_iff₀ hwq]
      nlinarith
    have hfloor : (th : ℤ) ≤ ⌊(tw : ℚ) / ((cover.width : ℚ) / cover.height)⌋ :=
      Int.le_floor.mpr (by exact_mod_cast hval)
    have h0 : (0:ℤ) ≤ ⌊(tw : ℚ) / ((cover.width : ℚ) / cover.height)⌋ :=
      le_trans (by exact_mod_cast Nat.zero_le th) hfloor
    exact (Int.le_toNat h0).mpr hfloor

/-- Witness for C8 at a concrete 100×50 source and 30×30 target. -/
theorem cover_normalizer_dims_witness :
    create_cover_with_rounded_corners ⟨100, 50⟩ 30 30 = ⟨30, 30⟩ ∧
    (((100:ℚ)) / 50 > (30 : ℚ) / 30 →
      (coverResizeDims ⟨100, 50⟩ 30 30).2 = 30 ∧ 30 ≤ (coverResizeDims ⟨100, 50⟩ 30 30).1) ∧
    (((100:ℚ)) / 50 ≤ (30 : ℚ) / 30 →
      (coverResizeDims ⟨100, 50⟩ 30 30).1 = 30 ∧ 30 ≤ (coverResizeDims ⟨100, 50⟩ 30 30).2) :=
  cover_normalizer_dims ⟨100, 50⟩ 30 30 (by decide) (by decide) (by decide) (by decide)

end Bakuretsu

namespace Bakuretsu

/-- `Platform` enum of the source. -/
inductive Platform
  | none
  | backloggd
  | letterboxd
deriving DecidableEq, Repr

/-- `ContentType` enum of the source. -/
inductive ContentType
  | game
  | movie
deriving DecidableEq, Repr

/-- `PlatformBranding` dataclass. -/
structure PlatformBranding where
  name : String
  logo_path : Option String
  accent_color : ℕ × ℕ × ℕ
  username : String
deriving DecidableEq, Repr

/-- `PlatformBranding.backloggd` (default logo path, purple accent). -/
def PlatformBranding.backloggd (username : String) : PlatformBranding :=
  ⟨"Backloggd", some "assets/logos/backloggd_logo.png", (139, 92, 246), username⟩

/-- `PlatformBranding.letterboxd` (default logo path, orange accent). -/
def PlatformBranding.letterboxd (username : String) : PlatformBranding :=
  ⟨"Letterboxd", some "assets/logos/letterboxd_logo.png", (255, 128, 0), username⟩

/-- `ReviewData` dataclass: a cover reference is modelled by its source
string (URL or path), as the geometry never depends on which. -/
structure ReviewData where
  title : String
  score : ℚ
  review_text : String
  content_type : ContentType
  cover_image : Option String := Option.none
  platform : Platform := Platform.none
  platform_username : String := ""
deriving DecidableEq, Repr

/-- `ReviewData.validate`: raises (`Except.error`) on empty/whitespace-only
title, score outside `[0,10]`, or empty/whitespace-only review text, in that
order; otherwise returns `True`. -/
def ReviewData.validate (r : ReviewData) : Except String Bool :=
  if r.title = "" ∨ pyStrip r.title = "" then .error "Title cannot be empty"
  else if ¬(0 ≤ r.score ∧ r.score ≤ 10) then .error "Score must be between 0 and 10"
  else if r.review_text = "" ∨ pyStrip r.review_text = "" then .error "Review text cannot be empty"
  else .ok true

/-- `CardStyle` with the constructor's default values (font objects are
replaced by the measurement functions of `RenderEnv`). -/
structure CardStyle where
  width : ℕ := 1200
  height : ℕ := 675
  background_color : ℕ × ℕ × ℕ × ℕ := (18, 18, 24, 255)
  primary_color : ℕ × ℕ × ℕ := (255, 255, 255)
  secondary_color : ℕ × ℕ × ℕ := (156, 163, 175)
  accent_color : ℕ × ℕ × ℕ := (236, 72, 153)
  title_font_size : ℕ := 48
  score_font_size : ℕ := 72
  review_font_size : ℕ := 24
  platform_font_size : ℕ := 20
  padding : ℕ := 40
  cover_width : ℕ := 300
  corner_radius : ℕ := 20
deriving DecidableEq, Repr

/-- The four fonts a `CardStyle` holds. -/
inductive FontKind
  | title
  | score
  | review
  | platform
deriving DecidableEq, Repr

/-- Outcome of the platform-logo loading attempt inside
`_draw_platform_branding`:
* `loaded` — `branding.logo_path` exists and opening/pasting succeeds;
* `missing` — `Path(branding.logo_path).exists()` is `False`, so the `if`
  body is skipped and no exception is raised;
* `failed` — an exception is raised inside the `try` block. -/
inductive LogoOutcome
  | loaded
  | missing
  | failed
deriving DecidableEq, Repr

/-- External collaborators of one render: text metrics per font, the image
source for cover references, and the logo-loading outcome per platform. -/
structure RenderEnv where
  measure : FontKind → String → ℤ
  loadCover : String → Except Unit Img
  logoOutcome : Platform → LogoOutcome

/-- One drawing primitive issued on the card canvas, with its geometry. -/
inductive DrawOp
  | roundedRect (x0 y0 x1 y1 : ℤ) (radius : ℕ) (fill : ℕ × ℕ × ℕ × ℕ)
  | pasteCover (x y : ℤ) (tile : Img)
  | text (x y : ℤ) (s : String) (font : FontKind) (fill : ℕ × ℕ × ℕ) (anchor : String)
  | pasteLogo (x y size : ℤ)
  | ellipse (x0 y0 x1 y1 : ℤ) (fill : ℕ × ℕ × ℕ)
deriving DecidableEq, Repr

/-- `max_review_lines` constant of `generate`. -/
def max_review_lines : ℕ := 8

/-- The truncation applied to the last rendered body line when lines were
cut: `line[:-3] + "..." if len(line) > 3 else "..."`. -/
def truncLine (line : String) : String :=
  if line.length > 3 then (line.data.take (line.data.length - 3)).asString ++ "..." else "..."

/-- The body-drawing loop's per-line transformation: line `i` (0-based) is
truncated when it is line `max_review_lines - 1` and more lines existed. -/
def renderBodyAux (total : ℕ) : ℕ → List String → List String
  | _, [] => []
  | i, l :: ls =>
    (if i = max_review_lines - 1 ∧ total > max_review_lines then truncLine l else l)
      :: renderBodyAux total (i + 1) ls

/-- The body lines actually rendered by `generate`: the first 8 wrapped
lines, with the 8th truncated when more than 8 lines were produced. -/
def renderBodyLines (lines : List String) : List String :=
  renderBodyAux lines.length 0 (lines.take max_review_lines)

/-- A run of `draw.text` calls at a fixed x, advancing y by `step` per line
(the title and body loops of `generate`; PIL's default anchor is `"la"`). -/
def placeLines (x step : ℤ) (font : FontKind) (fill : ℕ × ℕ × ℕ) :
    ℤ → List String → List DrawOp
  | _, [] => []
  | y, l :: ls => .text x y l font fill "la" :: placeLines x step font fill (y + step) ls

/-- The cover placeholder drawn by `generate` (both when no cover is given
and when loading fails): a rounded rectangle of the configured cover slot
and a centered "No Cover" label in the review font/secondary color. -/
def noCoverOps (style : CardStyle) : List DrawOp :=
  let cover_width : ℤ := style.cover_width
  let cover_height : ℤ := 3 * style.cover_width / 2
  let cover_x : ℤ := style.padding
  let cover_y : ℤ := style.padding
  [.roundedRect cover_x cover_y (cover_x + cover_width) (cover_y + cover_height) 15 (40, 40, 50, 255),
   .text (cover_x + cover_width / 2) (cover_y + cover_height / 2) "No Cover" .review
     style.secondary_color "mm"]

/-- The cover-slot drawing of `generate`: Python's `if review.cover_image:`
is falsy for `None` and for the empty string; a load/decode failure is
caught and replaced by the placeholder. -/
def coverOps (env : RenderEnv) (style : CardStyle) (cover_image : Option String) : List DrawOp :=
  match cover_image with
  | Option.none => noCoverOps style
  | some ref =>
    if ref = "" then noCoverOps style
    else
      match env.loadCover ref with
      | .ok cover =>
        [.pasteCover style.padding style.padding
          (create_cover_with_rounded_corners cover style.cover_width (3 * style.cover_width / 2))]
      | .error _ => noCoverOps style

/-- `_draw_platform_branding`: logo (or fallback) then the platform label.
With outcome `loaded` the logo is pasted and `x` advances by
`logo_size + 10`; with `failed` (an exception) the accent-colored ellipse is
drawn over the logo box and `x` advances; with `missing`
(`Path.exists()` false) nothing is drawn and `x` does not advance. -/
def draw_platform_branding (env : RenderEnv) (style : CardStyle) (platform : Platform)
    (username : String) (position : ℤ × ℤ) : List DrawOp :=
  if platform = Platform.none then []
  else
    let branding : Option PlatformBranding :=
      match platform with
      | .backloggd => some (PlatformBranding.backloggd username)
      | .letterboxd => some (PlatformBranding.letterboxd username)
      | .none => Option.none
    match branding with
    | Option.none => []
    | some branding =>
      let x := position.1
      let y := position.2
      let logo_size : ℤ := 32
      let platform_text := branding.name ++ (if username ≠ "" then " @" ++ username else "")
      match env.logoOutcome platform with
      | .loaded =>
        [.pasteLogo x y logo_size,
         .text (x + logo_size + 10) (y + logo_size / 2) platform_text .platform
           style.secondary_color "lm"]
      | .missing =>
        [.text x (y + logo_size / 2) platform_text .platform style.secondary_color "lm"]
      | .failed =>
        [.ellipse x y (x + logo_size) (y + logo_size) branding.accent_color,
         .text (x + logo_size + 10) (y + logo_size / 2) platform_text .platform
           style.secondary_color "lm"]

/-- The base card: rounded rectangle over the whole canvas in the
background color. -/
def baseOp (style : CardStyle) : DrawOp :=
  .roundedRect 0 0 ((style.width : ℤ) - 1) ((style.height : ℤ) - 1) style.corner_radius
    style.background_color

/-- Everything `generate` draws after the cover slot: title (at most two
wrapped lines), score, body (at most 8 wrapped lines, 8th truncated), and
the platform badge. -/
def afterCoverOps (env : RenderEnv) (style : CardStyle) (review : ReviewData) : List DrawOp :=
  let padding : ℤ := style.padding
  let text_x : ℤ := padding + style.cover_width + padding
  let text_width : ℤ := style.width - text_x - padding
  let title_lines := (wrapText (env.measure .title) text_width review.title).take 2
  let titleOps := placeLines text_x (style.title_font_size + 5) .title style.primary_color
    padding title_lines
  let title_y : ℤ := padding + title_lines.length * ((style.title_font_size : ℤ) + 5)
  let score_y : ℤ := title_y + 15
  let scoreOp : DrawOp := .text text_x score_y (format_score review.score) .score
    (get_score_color review.score) "la"
  let review_y : ℤ := score_y + style.score_font_size + 20
  let review_lines := wrapText (env.measure .review) text_width review.review_text
  let bodyOps := placeLines text_x (style.review_font_size + 8) .review style.secondary_color
    review_y (renderBodyLines review_lines)
  let badgeOps :=
    if review.platform ≠ Platform.none then
      draw_platform_branding env style review.platform review.platform_username
        (padding, (style.height : ℤ) - padding - 32)
    else []
  titleOps ++ [scoreOp] ++ bodyOps ++ badgeOps

/-- `ReviewCardGenerator.generate`: validates, then issues the draw
sequence (base card, cover slot, title, score, body, badge) in order. -/
def generate (env : RenderEnv) (style : CardStyle) (review : ReviewData) :
    Except String (List DrawOp) :=
  match review.validate with
  | .error e => .error e
  | .ok _ =>
    .ok (baseOp style
      :: (coverOps env style review.cover_image ++ afterCoverOps env style review))

end Bakuretsu

namespace Bakuretsu

/-- A concrete render environment for witnesses: character-count metrics,
an image source that always fails, and a fixed logo outcome. -/
def envWithLogo (o : LogoOutcome) : RenderEnv :=
  { measure := fun _ s => s.length, loadCover := fun _ => .error (), logoOutcome := fun _ => o }

theorem validate_ok (r : ReviewData)
    (h : pyStrip r.title ≠ "" ∧ 0 ≤ r.score ∧ r.score ≤ 10 ∧ pyStrip r.review_text ≠ "") :
    r.validate = .ok true := by
  obtain ⟨h1, h2, h3, h4⟩ := h
  have c1 : ¬(r.title = "" ∨ pyStrip r.title = "") := by
    rintro (he | he)
    · exact h1 (by rw [he]; rfl)
    · exact h1 he
  have c2 : ¬¬(0 ≤ r.score ∧ r.score ≤ 10) := not_not.mpr ⟨h2, h3⟩
  have c3 : ¬(r.review_text = "" ∨ pyStrip r.review_text = "") := by
    rintro (he | he)
    · exact h4 (by rw [he]; rfl)
    · exact h4 he
  rw [ReviewData.validate, if_neg c1, if_neg c2, if_neg c3]

theorem validate_error (r : ReviewData)
    (h : pyStrip r.title = "" ∨ ¬(0 ≤ r.score ∧ r.score ≤ 10) ∨ pyStrip r.review_text = "") :
    ∃ e, r.validate = .error e := by
  rw [ReviewData.validate]
  by_cases c1 : r.title = "" ∨ pyStrip r.title = ""
  · exact ⟨_, by rw [if_pos c1]⟩
  · rw [if_neg c1]
    by_cases c2 : ¬(0 ≤ r.score ∧ r.score ≤ 10)
    · exact ⟨_, by rw [if_pos c2]⟩
    · rw [if_neg c2]
      by_cases c3 : r.review_text = "" ∨ pyStrip r.review_text = ""
      · exact ⟨_, by rw [if_pos c3]⟩
      · exfalso
        rcases h with h | h | h
        · exact c1 (Or.inr h)
        · exact c2 h
        · exact c3 (Or.inr h)

/-- C1: `generate` fails with a validation error — before the base canvas or
any pixel is produced — exactly when the title is empty/whitespace-only, the
score lies outside `[0,10]`, or the review text is empty/whitespace-only;
on valid data it returns a canvas and no validation error. -/
theorem generate_validation (env : RenderEnv) (style : CardStyle) (r : ReviewData) :
    ((pyStrip r.title = "" ∨ ¬(0 ≤ r.score ∧ r.score ≤ 10) ∨ pyStrip r.review_text = "") →
      ∃ e, generate env style r = .error e) ∧
    ((pyStrip r.title ≠ "" ∧ 0 ≤ r.score ∧ r.score ≤ 10 ∧ pyStrip r.review_text ≠ "") →
      ∃ ops, generate env style r = .ok ops) := by
  constructor
  · intro h
    obtain ⟨e, he⟩ := validate_error r h
    exact ⟨e, by simp only [generate, he]⟩
  · intro h
    refine ⟨baseOp style :: (coverOps env style r.cover_image ++ afterCoverOps env style r), ?_⟩
    simp only [generate, validate_ok r h]

/-- Witness for C1: an empty title is rejected, a valid review renders. -/
theorem generate_validation_witness :
    (∃ e, generate (envWithLogo .loaded) {}
      ⟨"", 5, "body", .game, Option.none, .none, ""⟩ = .error e) ∧
    (∃ ops, generate (envWithLogo .loaded) {}
      ⟨"T", 5, "body", .game, Option.none, .none, ""⟩ = .ok ops) :=
  ⟨(generate_validation (envWithLogo .loaded) {} _).1 (by decide),
   (generate_validation (envWithLogo .loaded) {} _).2 (by decide)⟩

theorem renderBodyAux_id (total : ℕ) (h : total ≤ max_review_lines) :
    ∀ (i : ℕ) (ls : List String), renderBodyAux total i ls = ls := by
  intro i ls
  induction ls generalizing i with
  | nil => rfl
  | cons l ls ih =>
    rw [renderBodyAux, if_neg, ih]
    rintro ⟨_, hgt⟩
    omega

theorem renderBodyAux_trunc (total : ℕ) (htotal : max_review_lines < total) :
    ∀ (ls : List String) (i : ℕ), ls ≠ [] → i + ls.length = max_review_lines →
      renderBodyAux total i ls
        = ls.take (ls.length - 1) ++ [truncLine (ls.getD (ls.length - 1) "")] := by
  have h8 : max_review_lines = 8 := rfl
  intro ls
  induction ls with
  | nil => intro i h; exact absurd rfl h
  | cons l ls ih =>
    intro i _ hlen
    by_cases hls : ls = []
    · subst hls
      simp only [List.length_cons, List.length_nil] at hlen
      have hi : i = max_review_lines - 1 := by omega
      rw [renderBodyAux, if_pos ⟨hi, htotal⟩]
      simp [renderBodyAux]
    · have hpos : 0 < ls.length := List.length_pos.mpr hls
      have hi : ¬(i = max_review_lines - 1 ∧ total > max_review_lines) := by
        rintro ⟨h1, _⟩
        simp only [List.length_cons] at hlen
        omega
      rw [renderBodyAux, if_neg hi, ih (i + 1) hls (by simp only [List.length_cons] at hlen; omega)]
      obtain ⟨n, hn⟩ : ∃ n, ls.length = n + 1 :=
        ⟨ls.length - 1, (Nat.succ_pred_eq_of_pos hpos).symm⟩
      simp [hn, List.take_succ_cons, List.getD_cons_succ]

/-- C6: a body that wraps to more than 8 lines renders exactly 8 lines, the
first 7 unmodified and the 8th being the wrapped 8th line with its last 3
characters replaced by `"..."` (entirely `"..."` when it has at most 3
characters); a body wrapping to at most 8 lines renders all its lines
unmodified. -/
theorem body_line_truncation (measure : String → ℤ) (maxWidth : ℤ) (body : String) :
    (max_review_lines < (wrapText measure maxWidth body).length →
      (renderBodyLines (wrapText measure maxWidth body)).length = max_review_lines ∧
      renderBodyLines (wrapText measure maxWidth body)
        = (wrapText measure maxWidth body).take 7
            ++ [truncLine ((wrapText measure maxWidth body).getD 7 "")]) ∧
    ((wrapText measure maxWidth body).length ≤ max_review_lines →
      renderBodyLines (wrapText measure maxWidth body) = wrapText measure maxWidth body) := by
  have h8 : max_review_lines = 8 := rfl
  set L := wrapText measure maxWidth body with hL
  constructor
  · intro h
    have htl : (L.take max_review_lines).length = max_review_lines := by
      rw [List.length_take]
      omega
    have hne : L.take max_review_lines ≠ [] := by
      intro hcon
      rw [hcon] at htl
      rw [h8] at htl
      simp at htl
    have heq := renderBodyAux_trunc L.length h (L.take max_review_lines) 0 hne
      (by rw [htl]; omega)
    rw [htl] at heq
    rw [h8] at heq
    norm_num at heq
    have hbody : renderBodyLines L = L.take 7 ++ [truncLine (L.getD 7 "")] := by
      rw [renderBodyLines, h8, heq, List.take_take]
      norm_num [List.getD]
    constructor
    · rw [hbody]
      simp only [List.length_append, List.length_take, List.length_cons, List.length_nil]
      omega
    · exact hbody
  · intro h
    rw [renderBodyLines, renderBodyAux_id L.length h, List.take_of_length_le h]

/-- Witness for C6: nine one-word lines render as seven lines plus the
truncated eighth (`"hh"` has at most 3 characters, so it becomes `"..."`). -/
theorem body_line_truncation_witness :
    (renderBodyLines (wrapText (fun s => (s.length : ℤ)) 1 "aa bb cc dd ee ff gg hh ii")).length
      = max_review_lines ∧
    renderBodyLines (wrapText (fun s => (s.length : ℤ)) 1 "aa bb cc dd ee ff gg hh ii")
      = (wrapText (fun s => (s.length : ℤ)) 1 "aa bb cc dd ee ff gg hh ii").take 7
          ++ [truncLine ((wrapText (fun s => (s.length : ℤ)) 1 "aa bb cc dd ee ff gg hh ii").getD 7 "")] :=
  (body_line_truncation (fun s => (s.length : ℤ)) 1 "aa bb cc dd ee ff gg hh ii").1 (by decide)

/-- C7 (code bug): the badge layout is *not* identical across
logo-availability outcomes.  When the logo file simply does not exist
(`Path.exists()` returns `False` — the common failure, and the repository
ships no `assets/logos/`), the `try` body is skipped without an exception,
so no fallback circle is drawn and `x` never advances: the label starts at
`x = 40` instead of `x = 82`, and the badge is 42px narrower.  The fallback
circle (and the stable layout the spec requires) only happens when an
exception is raised. -/
theorem branding_layout_shift_on_missing_logo :
    draw_platform_branding (envWithLogo .missing) {} .backloggd "user" (40, 603)
      = [.text 40 619 "Backloggd @user" .platform (156, 163, 175) "lm"] ∧
    draw_platform_branding (envWithLogo .failed) {} .backloggd "user" (40, 603)
      = [.ellipse 40 603 72 635 (139, 92, 246),
         .text 82 619 "Backloggd @user" .platform (156, 163, 175) "lm"] ∧
    draw_platform_branding (envWithLogo .loaded) {} .backloggd "user" (40, 603)
      = [.pasteLogo 40 603 32,
         .text 82 619 "Backloggd @user" .platform (156, 163, 175) "lm"] := by
  refine ⟨by decide, by decide, by decide⟩

/-- C9: on valid data whose cover reference fails to load, `generate` does
not raise: the render completes, is identical to the render of the same
review with no cover at all, and paints the placeholder (rounded rectangle
of exactly `cover_width × int(cover_width * 1.5)` plus a centered
"No Cover" label) in the cover slot. -/
theorem generate_cover_fallback (env : RenderEnv) (style : CardStyle) (r : ReviewData)
    (ref : String)
    (hvalid : pyStrip r.title ≠ "" ∧ 0 ≤ r.score ∧ r.score ≤ 10 ∧ pyStrip r.review_text ≠ "")
    (hcover : r.cover_image = some ref)
    (hfail : env.loadCover ref = .error ()) :
    generate env style r = generate env style { r with cover_image := Option.none } ∧
    ∃ rest, generate env style r = .ok (baseOp style :: (noCoverOps style ++ rest)) ∧
      noCoverOps style
        = [DrawOp.roundedRect style.padding style.padding
             ((style.padding : ℤ) + style.cover_width)
             ((style.padding : ℤ) + 3 * style.cover_width / 2) 15 (40, 40, 50, 255),
           DrawOp.text ((style.padding : ℤ) + style.cover_width / 2)
             ((style.padding : ℤ) + (3 * (style.cover_width : ℤ) / 2) / 2) "No Cover" .review
             style.secondary_color "mm"] := by
  have hok : r.validate = .ok true := validate_ok r hvalid
  have hok2 : ({ r with cover_image := Option.none } : ReviewData).validate = .ok true :=
    validate_ok _ hvalid
  have hafter : afterCoverOps env style r
      = afterCoverOps env style { r with cover_image := Option.none } := rfl
  constructor
  · simp only [generate, hok, hok2, hcover]
    by_cases href : ref = "" <;> simp [coverOps, href, hfail, hafter]
  · refine ⟨afterCoverOps env style r, ?_, ?_⟩
    · simp only [generate, hok, hcover]
      by_cases href : ref = "" <;> simp [coverOps, href, hfail]
    · rfl

/-- Witness for C9 at a concrete review whose cover reference fails. -/
theorem generate_cover_fallback_witness :
    generate (envWithLogo .loaded) {}
        ⟨"T", 5, "body", .game, some "cover.png", .none, ""⟩
      = generate (envWithLogo .loaded) {}
        ⟨"T", 5, "body", .game, Option.none, .none, ""⟩ ∧
    ∃ rest, generate (envWithLogo .loaded) {}
        ⟨"T", 5, "body", .game, some "cover.png", .none, ""⟩
      = .ok (baseOp {} :: (noCoverOps {} ++ rest)) ∧
      noCoverOps {}
        = [DrawOp.roundedRect (({} : CardStyle).padding) (({} : CardStyle).padding)
             (((({} : CardStyle).padding : ℤ)) + ({} : CardStyle).cover_width)
             (((({} : CardStyle).padding : ℤ)) + 3 * ({} : CardStyle).cover_width / 2)
             15 (40, 40, 50, 255),
           DrawOp.text (((({} : CardStyle).padding : ℤ)) + ({} : CardStyle).cover_width / 2)
             (((({} : CardStyle).padding : ℤ)) + (3 * (({} : CardStyle).cover_width : ℤ) / 2) / 2)
             "No Cover" .review ({} : CardStyle).secondary_color "mm"] :=
  generate_cover_fallback (envWithLogo .loaded) {}
    ⟨"T", 5, "body", .game, some "cover.png", .none, ""⟩ "cover.png"
    (by decide) rfl rfl

end Bakuretsu
